import Mathlib

/-!
# Verification of the simple_video_downloader job orchestration core

Shallow embedding of the repository's job lifecycle, post-processing,
broadcast, admission and concurrency logic, plus theorems settling the
frozen claims about it.

Source files embedded:
- `app/main.py` (the wired FastAPI application: progress store, progress
  hook, strategy fallback, post-processing, broadcaster, endpoints)
- `app/services/downloader.py` (`VideoDownloader`: semaphore, internal
  download, `_ensure_compatible_format`)
- `app/services/job_manager.py` (`JobManager`)
- `app/models.py` (`DownloadRequest` validators, `JobStatus`)
- `app/config.py` (`Settings` defaults)
-/

/-! ## String helpers mirroring the Python primitives used by the source -/

/-- Python `str.lower()` restricted to the ASCII casing used by the code. -/
def strToLower (s : String) : String :=
  String.mk (s.toList.map Char.toLower)

/-- Python `str.endswith(suffix)`. -/
def strEndsWith (s suf : String) : Bool :=
  suf.toList.isSuffixOf s.toList

/-- Whether the second list occurs at the head of the first. -/
def listStartsWith : List Char → List Char → Bool
  | _, [] => true
  | [], _ :: _ => false
  | c :: cs, d :: ds => c == d && listStartsWith cs ds

/-- Whether the second list occurs contiguously anywhere in the first. -/
def listContainsSub : List Char → List Char → Bool
  | [], pat => pat.isEmpty
  | c :: cs, pat => listStartsWith (c :: cs) pat || listContainsSub cs pat

/-- Python `pat in msg` substring containment. -/
def containsSub (msg pat : String) : Bool :=
  listContainsSub msg.toList pat.toList

/-- `os.path.basename`: the component after the last slash. -/
def basename (p : String) : String :=
  (p.splitOn "/").getLastD p

/-- Helper for `os.path.splitext`, scanning the reversed character list of a
path: stops at a path separator, and records the characters after the last
dot of the final component together with the remaining reversed prefix. -/
def splitExtRev : List Char → Option (List Char × List Char)
  | [] => none
  | c :: rest =>
    if c = '/' then none
    else if c = '.' then some ([], rest)
    else
      match splitExtRev rest with
      | some (e, r) => some (c :: e, r)
      | none => none

/-- `os.path.splitext`: splits at the last dot of the final path component,
except when every character of that component before the dot is itself a dot
(the hidden-file special case), in which case the extension is empty. -/
def splitext (p : String) : String × String :=
  match splitExtRev p.toList.reverse with
  | none => (p, "")
  | some (e, r) =>
    if (r.takeWhile (fun c => c ≠ '/')).all (fun c => c = '.') then (p, "")
    else (String.mk r.reverse, String.mk ('.' :: e.reverse))

/-- `os.path.splitext(p)[0]`, the root of the path without its extension. -/
def stripExt (p : String) : String := (splitext p).1

theorem splitExtRev_no_dot :
    ∀ (l e r : List Char), splitExtRev l = some (e, r) → '.' ∉ e := by
  intro l
  induction l with
  | nil => intro e r h; exact absurd h (by simp [splitExtRev])
  | cons c rest ih =>
    intro e r h
    by_cases hc : c = '/'
    · rw [splitExtRev, if_pos hc] at h
      exact absurd h (by simp)
    · by_cases hd : c = '.'
      · rw [splitExtRev, if_neg hc, if_pos hd] at h
        simp at h
        obtain ⟨he, _⟩ := h
        subst he
        simp
      · rw [splitExtRev, if_neg hc, if_neg hd] at h
        cases hrec : splitExtRev rest with
        | none => rw [hrec] at h; exact absurd h (by simp)
        | some pr =>
          obtain ⟨e', r'⟩ := pr
          rw [hrec] at h
          simp at h
          obtain ⟨he, hr⟩ := h
          subst he
          intro hmem
          cases hmem with
          | head => exact hd rfl
          | tail _ hm => exact ih e' r' hrec hm

theorem splitExtRev_recon :
    ∀ (l e r : List Char), splitExtRev l = some (e, r) → l = e ++ '.' :: r := by
  intro l
  induction l with
  | nil => intro e r h; exact absurd h (by simp [splitExtRev])
  | cons c rest ih =>
    intro e r h
    by_cases hc : c = '/'
    · rw [splitExtRev, if_pos hc] at h
      exact absurd h (by simp)
    · by_cases hd : c = '.'
      · rw [splitExtRev, if_neg hc, if_pos hd] at h
        simp at h
        obtain ⟨he, hr⟩ := h
        subst he
        subst hr
        simp [hd]
      · rw [splitExtRev, if_neg hc, if_neg hd] at h
        cases hrec : splitExtRev rest with
        | none => rw [hrec] at h; exact absurd h (by simp)
        | some pr =>
          obtain ⟨e', r'⟩ := pr
          rw [hrec] at h
          simp at h
          obtain ⟨he, hr⟩ := h
          subst he
          subst hr
          simp [ih e' r' hrec]

/-- Shape of `stripExt`: either it is the whole path (no extension split) or
the path decomposes as root, dot and a dot-free extension tail. -/
theorem stripExt_cases (p : String) :
    stripExt p = p ∨
    ∃ e r : List Char, splitExtRev p.toList.reverse = some (e, r) ∧
      stripExt p = String.mk r.reverse ∧ p.toList = r.reverse ++ '.' :: e.reverse := by
  unfold stripExt splitext
  cases hrev : splitExtRev p.toList.reverse with
  | none => left; rfl
  | some pr =>
    obtain ⟨e, r⟩ := pr
    by_cases hall : ((r.takeWhile (fun c => c ≠ '/')).all (fun c => c = '.')) = true
    · left
      simp only [hall, if_true]
    · right
      refine ⟨e, r, rfl, ?_, ?_⟩
      · simp only [if_neg hall]
      · have hrecon := splitExtRev_recon _ _ _ hrev
        have : p.toList.reverse.reverse = (e ++ '.' :: r).reverse := by rw [hrecon]
        simpa using this

/-- Freshness of the temporary names used by post-processing: appending a
suffix that begins with a dot and carries a second dot later never recovers
the original path, because a `splitext` extension holds exactly one dot. -/
theorem stripExt_append_ne (p s : String)
    (hs : ∃ s1 s2 : List Char, s.toList = '.' :: (s1 ++ '.' :: s2)) :
    stripExt p ++ s ≠ p := by
  rcases hs with ⟨s1, s2, hsl⟩
  have hslen : 0 < s.length := by
    have h1 : s.length = s.toList.length := rfl
    rw [h1, hsl]; simp
  rcases stripExt_cases p with heq | ⟨e, r, hrev, hval, hpl⟩
  · rw [heq]
    intro hcontra
    have : (p ++ s).length = p.length := by rw [hcontra]
    rw [String.length_append] at this
    omega
  · rw [hval]
    intro hcontra
    have hdata : (String.mk r.reverse ++ s).toList = p.toList := by rw [hcontra]
    have hmk : (String.mk r.reverse ++ s).toList = r.reverse ++ s.toList := rfl
    rw [hmk, hpl, hsl] at hdata
    have hcancel : '.' :: (s1 ++ '.' :: s2) = '.' :: e.reverse :=
      List.append_cancel_left hdata
    have hdot : '.' ∈ e.reverse := by
      have : s1 ++ '.' :: s2 = e.reverse := by
        injection hcancel
      rw [← this]; simp
    exact splitExtRev_no_dot _ _ _ hrev (by simpa using hdot)

/-! ## Filesystem model

Paths map to abstract file contents (a `Nat` identity); the association list
is kept duplicate-free by construction of `fsWrite`. -/

/-- A scratch filesystem: an association of paths to abstract contents. -/
abbrev FS := List (String × Nat)

/-- Content of a path, `none` when the file does not exist. -/
def fsGet : FS → String → Option Nat
  | [], _ => none
  | (q, c) :: rest, p => if p = q then some c else fsGet rest p

/-- Delete a path (no-op when absent), as `os.remove` guarded by existence. -/
def fsRemove : FS → String → FS
  | [], _ => []
  | (q, c) :: rest, p => if p = q then fsRemove rest p else (q, c) :: fsRemove rest p

/-- Create or overwrite a file. -/
def fsWrite (fs : FS) (p : String) (c : Nat) : FS :=
  (p, c) :: fsRemove fs p

theorem fsGet_fsRemove (fs : FS) (p q : String) :
    fsGet (fsRemove fs p) q = if q = p then none else fsGet fs q := by
  induction fs with
  | nil => simp [fsRemove, fsGet]
  | cons hd tl ih =>
    obtain ⟨x, c⟩ := hd
    simp only [fsRemove, fsGet]
    by_cases hx : p = x
    · subst hx
      rw [if_pos rfl, ih]
      by_cases hq : q = p
      · simp [hq]
      · simp [hq]
    · rw [if_neg hx]
      simp only [fsGet]
      by_cases hq : q = x
      · have hqp : ¬ q = p := fun h => hx (h ▸ hq)
        rw [if_pos hq, if_neg hqp, if_pos hq]
      · rw [if_neg hq, ih]
        by_cases hq2 : q = p
        · rw [if_pos hq2, if_pos hq2]
        · rw [if_neg hq2, if_neg hq2, if_neg hq]

theorem fsGet_fsWrite (fs : FS) (p q : String) (c : Nat) :
    fsGet (fsWrite fs p c) q = if q = p then some c else fsGet fs q := by
  unfold fsWrite
  simp only [fsGet]
  by_cases hq : q = p
  · rw [if_pos hq, if_pos hq]
  · rw [if_neg hq, if_neg hq, fsGet_fsRemove, if_neg hq]

/-! ## External-tool model

`ToolRun` abstracts one ffmpeg invocation: the process either runs to
completion with an exit code, or the call raises (`subprocess` timeout or
similar); in both cases the tool may or may not have produced (partial)
output at its target path before stopping. -/

/-- Outcome of one external ffmpeg invocation writing to a target path. -/
inductive ToolRun
  | completed (exitCode : Nat) (output : Option Nat)
  | raised (output : Option Nat)
deriving DecidableEq

/-- The tool's (possibly partial) output materialised at the target path. -/
def toolWrite (fs : FS) (target : String) : Option Nat → FS
  | some c => fsWrite fs target c
  | none => fs

/-- A run that did not end with exit status zero. -/
def toolFailed : ToolRun → Bool
  | .completed 0 _ => false
  | .completed (_ + 1) _ => true
  | .raised _ => true

/-! ## Compatibility post-processor (`app/main.py` and
`app/services/downloader.py`) -/

/-- Temporary name used by `normalize_mp4`:
`os.path.splitext(path)[0] + ".__fixed__.mp4"`. -/
def fixedName (path : String) : String := stripExt path ++ ".__fixed__.mp4"

/-- Temporary name used by `ensure_quicktime_compatible`:
`os.path.splitext(path)[0] + ".__qt__.mp4"`. -/
def qtName (path : String) : String := stripExt path ++ ".__qt__.mp4"

/-- Temporary name used by `_ensure_compatible_format`:
`filepath.with_suffix(".temp.mp4")`. -/
def tempName (path : String) : String := stripExt path ++ ".temp.mp4"

/-- `app/main.py` `normalize_mp4` (lines 165-201): remux an `.mp4` in place.
Skips non-mp4 paths and missing ffmpeg; runs ffmpeg with `check=True` into
the `.__fixed__.mp4` temporary, `os.replace`s it over the original on
success, and on any exception removes the temporary if it exists.  Always
returns the input path. -/
def normalize_mp4 (ffmpegOk : Bool) (tool : ToolRun) (fs : FS) (path : String) :
    FS × String :=
  if strEndsWith (strToLower path) ".mp4" = false then (fs, path)
  else if ffmpegOk = false then (fs, path)
  else
    match tool with
    | .completed 0 out =>
      match fsGet (toolWrite fs (fixedName path) out) (fixedName path) with
      | some c =>
        (fsRemove (fsWrite (toolWrite fs (fixedName path) out) path c) (fixedName path),
         path)
      | none => (toolWrite fs (fixedName path) out, path)
    | .completed (_ + 1) out =>
      (fsRemove (toolWrite fs (fixedName path) out) (fixedName path), path)
    | .raised out =>
      (fsRemove (toolWrite fs (fixedName path) out) (fixedName path), path)

/-- Codec identifiers QuickTime accepts without transcoding (video). -/
def QUICKTIME_OK_VC : List String := ["h264", "avc1", "hev1", "hvc1"]

/-- Codec identifiers QuickTime accepts without transcoding (audio). -/
def QUICKTIME_OK_AC : List String := ["aac", "mp4a", "alac"]

/-- `app/main.py` `ensure_quicktime_compatible` (lines 262-313): skip when
ffmpeg is missing or both probed codecs (empty string when probing failed)
are already compatible; otherwise transcode into the `.__qt__.mp4`
temporary with `check=True`, `os.replace` on success, remove the temporary
on failure.  Always returns the input path. -/
def ensure_quicktime_compatible (ffmpegOk : Bool) (probedV probedA : String)
    (tool : ToolRun) (fs : FS) (path : String) : FS × String :=
  if ffmpegOk = false then (fs, path)
  else if ((QUICKTIME_OK_VC.contains (strToLower probedV) || strToLower probedV == "") &&
       (QUICKTIME_OK_AC.contains (strToLower probedA) || strToLower probedA == "")) then
    (fs, path)
  else
    match tool with
    | .completed 0 o =>
      match fsGet (toolWrite fs (qtName path) o) (qtName path) with
      | some c =>
        (fsRemove (fsWrite (toolWrite fs (qtName path) o) path c) (qtName path), path)
      | none => (toolWrite fs (qtName path) o, path)
    | .completed (_ + 1) o =>
      (fsRemove (toolWrite fs (qtName path) o) (qtName path), path)
    | .raised o =>
      (fsRemove (toolWrite fs (qtName path) o) (qtName path), path)

/-- `app/services/downloader.py` `VideoDownloader._ensure_compatible_format`
(lines 342-387): skip when ffmpeg is missing or the suffix is not `.mp4`;
run ffmpeg without `check` into the `.temp.mp4` temporary; only when the
exit status is zero and the temporary exists, unlink the original and
rename the temporary over it; when the invocation raises, remove the
temporary; a nonzero exit status takes no cleanup action.  Always returns
the input path. -/
def ensure_compatible_format (ffmpegOk : Bool) (tool : ToolRun) (fs : FS)
    (path : String) : FS × String :=
  if ffmpegOk = false then (fs, path)
  else if (strToLower (splitext path).2 == ".mp4") = false then (fs, path)
  else
    match tool with
    | .completed 0 o =>
      match fsGet (toolWrite fs (tempName path) o) (tempName path) with
      | some c =>
        match fsGet (toolWrite fs (tempName path) o) path with
        | some _ =>
          (fsWrite (fsRemove (toolWrite fs (tempName path) o) (tempName path)) path c,
           path)
        | none => (fsRemove (toolWrite fs (tempName path) o) (tempName path), path)
      | none => (toolWrite fs (tempName path) o, path)
    | .completed (_ + 1) o => (toolWrite fs (tempName path) o, path)
    | .raised o => (fsRemove (toolWrite fs (tempName path) o) (tempName path), path)

theorem fixedName_ne (path : String) : fixedName path ≠ path := by
  unfold fixedName
  apply stripExt_append_ne
  exact ⟨"__fixed__".toList, "mp4".toList, by decide⟩

theorem qtName_ne (path : String) : qtName path ≠ path := by
  unfold qtName
  apply stripExt_append_ne
  exact ⟨"__qt__".toList, "mp4".toList, by decide⟩

theorem tempName_ne (path : String) : tempName path ≠ path := by
  unfold tempName
  apply stripExt_append_ne
  exact ⟨"temp".toList, "mp4".toList, by decide⟩

/-! ## Job records (`app/main.py` `progress_store` entries)

The store maps a job id to a JSON-like dict; the dict keys that ever occur
are modelled as optional fields, `none` standing for an absent key. -/

/-- The job status strings of `app/models.py` `JobStatus.status`. -/
inductive Status
  | queued | starting | downloading | postprocessing | finished | error | cancelled
deriving DecidableEq

/-- Terminal statuses per the spec glossary. -/
def isTerminal : Status → Bool
  | .finished => true
  | .error => true
  | .cancelled => true
  | _ => false

/-- One `progress_store[job_id]` dict. -/
structure Job where
  status : Status
  percent : Option String := none
  speed : Option String := none
  eta : Option String := none
  downloadedBytes : Option Nat := none
  totalBytes : Option Nat := none
  filepath : Option String := none
  filename : Option String := none
  error : Option String := none
deriving DecidableEq

/-- The record created by the `/download` endpoint: `{"status": "queued"}`. -/
def queuedJob : Job := { status := Status.queued }

/-! ## Progress hook (`app/main.py` `make_hook`, lines 131-152)

yt-dlp invokes the hook from the worker thread; each downloaded file of a
job produces a run of `downloading` callbacks followed by one `finished`
callback, and a failing strategy may stop after any of them.  The hook is
modelled by how it rewrites the job's store entry. -/

/-- One yt-dlp progress callback as seen by the hook. -/
inductive HookEvent
  | progress (percent speed eta : Option String) (db tb : Option Nat)
  | transferDone
deriving DecidableEq

/-- Effect of one hook callback on the store entry: a `downloading` callback
replaces the dict wholesale with a progress snapshot; a `finished` callback
merges `{"status": "postprocessing", "percent": "100%"}` into the current
dict. -/
def applyHook (j : Job) : HookEvent → Job
  | .progress p s e db tb =>
    { status := Status.downloading, percent := p, speed := s, eta := e,
      downloadedBytes := db, totalBytes := tb }
  | .transferDone =>
    { j with status := Status.postprocessing, percent := some "100%" }

/-! ## Strategy fallback (`app/main.py` `run_download_async`, lines 316-377)

One acquisition strategy (a cookie-option candidate) either returns a
downloaded file path or raises with a message, after having fired some hook
callbacks. -/

deriving instance DecidableEq for Except

/-- Observable behaviour of one acquisition strategy. -/
structure StratOutcome where
  events : List HookEvent
  result : Except String String
deriving DecidableEq

/-- Replay a strategy's hook callbacks, collecting every successive store
state (final state, then the list of states written). -/
def playEvents (j : Job) : List HookEvent → Job × List Job
  | [] => (j, [])
  | e :: es =>
    ((playEvents (applyHook j e) es).1,
     applyHook j e :: (playEvents (applyHook j e) es).2)

/-- The `for copt in _cookies_candidates()` loop with its `last_err`
accumulator: each strategy runs on failure of the previous one; the loop
stops at the first success, and after exhaustion re-raises the last error
(`none` only when the loop body never ran). -/
def stratLoop (j : Job) (lastErr : Option String) :
    List StratOutcome → Job × List Job × Except (Option String) String
  | [] => (j, [], Except.error lastErr)
  | s :: rest =>
    match s.result with
    | .ok p => ((playEvents j s.events).1, (playEvents j s.events).2, Except.ok p)
    | .error m =>
      ((stratLoop (playEvents j s.events).1 (some m) rest).1,
       (playEvents j s.events).2 ++
         (stratLoop (playEvents j s.events).1 (some m) rest).2.1,
       (stratLoop (playEvents j s.events).1 (some m) rest).2.2)

/-- Final store state after the strategy loop. -/
def slJob (j : Job) (le : Option String) (ss : List StratOutcome) : Job :=
  (stratLoop j le ss).1

/-- Store states written during the strategy loop, in order. -/
def slTrace (j : Job) (le : Option String) (ss : List StratOutcome) : List Job :=
  (stratLoop j le ss).2.1

/-- Result of the strategy loop: first success or the re-raised last error. -/
def slRes (j : Job) (le : Option String) (ss : List StratOutcome) :
    Except (Option String) String :=
  (stratLoop j le ss).2.2

/-- The fixed guidance appended by `run_download_async`'s error handler. -/
def instagramHint : String :=
  " — Instagram may require authentication. Ensure Chrome is unlocked, correct profile is used (Default/Profile 1), or place cookies at app/cookies/cookies.txt."

/-- Message stored on failure: the raised message, extended with the
authentication hint when it mentions Instagram, login or rate limiting
(`app/main.py` lines 372-374). -/
def augmentError (msg : String) : String :=
  if containsSub msg "Instagram" || containsSub msg "login required" ||
     containsSub msg "rate-limit" then msg ++ instagramHint
  else msg

/-- Message produced by CPython when `run_download_async` falls through an
empty candidate list and reads the unbound `filepath` local. -/
def unboundLocalMsg : String :=
  "cannot access local variable 'filepath' where it is not associated with a value"

/-- External context of one download run: scratch filesystem, ffmpeg
availability, the codecs ffprobe reports for the produced file, and the
behaviour of the two post-processing tool invocations. -/
structure PostEnv where
  fs : FS
  ffmpegOk : Bool
  probedV : String
  probedA : String
  toolNorm : ToolRun
  toolQt : ToolRun
deriving DecidableEq

/-- The `{"status": "starting"}` record written at the top of
`run_download_async`. -/
def startJob : Job := { status := Status.starting }

/-- The fresh `{"status": "error", "error": msg}` record written by the
handler of `run_download_async` (line 375). -/
def errorJob (m : String) : Job := { status := Status.error, error := some m }

/-- The `postprocessing` merge written at line 353:
`{**current, "status": "postprocessing", "percent": "100%"}`. -/
def postJob (jf : Job) : Job :=
  { jf with status := Status.postprocessing, percent := some "100%" }

/-- The `finished` merge written at lines 360-369: the current record
updated with status, filepath, filename and percent. -/
def finishJob (jf : Job) (p2 : String) : Job :=
  { jf with status := Status.finished, filepath := some p2,
            filename := some (basename p2), percent := some "100%" }

/-- The path recorded on success: the downloaded path threaded through
`normalize_mp4` (line 351) and then `ensure_quicktime_compatible`
(line 359), the latter running on the filesystem the former left. -/
def postPath (env : PostEnv) (p : String) : String :=
  (ensure_quicktime_compatible env.ffmpegOk env.probedV env.probedA env.toolQt
    (normalize_mp4 env.ffmpegOk env.toolNorm env.fs p).1
    (normalize_mp4 env.ffmpegOk env.toolNorm env.fs p).2).2

/-- `app/main.py` `run_download_async` (lines 316-377) as the ordered list
of store states it writes: the `starting` write, the hook writes of each
attempted strategy, then on acquisition success the `postprocessing` merge
(line 353) between `normalize_mp4` and `ensure_quicktime_compatible` and
the final `finished` merge carrying the post-processed path; on total
failure a fresh `{"status": "error", "error": msg}` dict (the error-free
empty-candidate fall-through reads the unbound `filepath` local and the
handler records the interpreter's message). -/
def runDownload (env : PostEnv) (strats : List StratOutcome) : List Job :=
  match slRes startJob none strats with
  | .ok p =>
    startJob :: slTrace startJob none strats ++
      [postJob (slJob startJob none strats),
       finishJob (postJob (slJob startJob none strats)) (postPath env p)]
  | .error (some m) =>
    startJob :: slTrace startJob none strats ++ [errorJob (augmentError m)]
  | .error none =>
    startJob :: slTrace startJob none strats ++ [errorJob unboundLocalMsg]

/-- The full store history of one job: the `queued` record written by the
`/download` endpoint followed by every state `run_download_async` writes. -/
def fullTrace (env : PostEnv) (strats : List StratOutcome) : List Job :=
  queuedJob :: runDownload env strats

/-- Last element of a history, with a default for the empty case. -/
def lastD : List Job → Job → Job
  | [], d => d
  | a :: l, _ => lastD l a

/-- Last store state of a history. -/
def lastJob (l : List Job) : Job := lastD l queuedJob

/-- Status of the last store state. -/
def lastStatus (l : List Job) : Status := (lastJob l).status

/-- Error message of the last store state. -/
def lastError (l : List Job) : Option String := (lastJob l).error

/-- Recorded file path of the last store state. -/
def lastFilepath (l : List Job) : Option String := (lastJob l).filepath

/-! ## The §4.3 state machine -/

/-- The transition edges of spec §4.3: `queued → starting`,
`starting → downloading`, `downloading → downloading`, any non-terminal to
`postprocessing`, `postprocessing → finished`, and any non-terminal to
`error` or `cancelled`. -/
def spec43Edge : Status → Status → Bool
  | .queued, .starting => true
  | .starting, .downloading => true
  | .downloading, .downloading => true
  | .postprocessing, .finished => true
  | a, .postprocessing => !isTerminal a
  | a, .error => !isTerminal a
  | a, .cancelled => !isTerminal a
  | _, _ => false

/-- The edges actually taken by the code: §4.3 plus re-entry
`postprocessing → downloading`, taken when a new transfer starts after an
earlier file of the same job finished (merged formats, or strategy
fallback after a completed transfer). -/
def extendedEdge (a b : Status) : Bool :=
  spec43Edge a b || (a == Status.postprocessing && b == Status.downloading)

/-- Adjacent-state relation claimed by the spec. -/
def spec43StepB (a b : Job) : Bool := spec43Edge a.status b.status

/-- Adjacent-state relation the code satisfies: an extended edge whose
source is never terminal. -/
def stepB (a b : Job) : Bool :=
  extendedEdge a.status b.status && !(isTerminal a.status)

/-- Every adjacent pair of a history satisfies the relation. -/
def chainAllB (R : Job → Job → Bool) : List Job → Bool
  | a :: b :: rest => R a b && chainAllB R (b :: rest)
  | _ => true

/-! ## Invariants of the run -/

/-- Statuses the store can hold while the strategy loop is running. -/
def activeStatus (s : Status) : Bool :=
  s == Status.starting || s == Status.downloading || s == Status.postprocessing

/-- No result and no error recorded. -/
def cleanJob (j : Job) : Bool :=
  j.filepath == none && j.filename == none && j.error == none

/-- Invariant of every store state written by the strategy loop. -/
def activeClean (j : Job) : Bool := activeStatus j.status && cleanJob j

/-- At most one of result and error populated (claim C2's predicate). -/
def resultErrorExclusive (j : Job) : Bool :=
  j.error == none || (j.filepath == none && j.filename == none)

/-- The job is not in the `error` state. -/
def notErrB (j : Job) : Bool := !(j.status == Status.error)

theorem active_not_terminal (s : Status) (h : activeStatus s = true) :
    isTerminal s = false := by
  cases s <;> simp_all [activeStatus, isTerminal]

theorem applyHook_ok (j : Job) (e : HookEvent) (h : activeClean j = true) :
    activeClean (applyHook j e) = true ∧ stepB j (applyHook j e) = true := by
  cases e <;> cases hs : j.status <;>
    simp_all [activeClean, activeStatus, cleanJob, applyHook, stepB, extendedEdge,
      spec43Edge, isTerminal]

theorem lastD_pred (p : Job → Bool) :
    ∀ (l : List Job) (d : Job), p d = true → l.all p = true →
      p (lastD l d) = true := by
  intro l
  induction l with
  | nil => intro d hd _; exact hd
  | cons b bs ih =>
    intro d hd hall
    show p (lastD bs b) = true
    have h1 := List.all_eq_true.mp hall
    exact ih b (h1 b (by simp))
      (List.all_eq_true.mpr fun x hx => h1 x (by simp [hx]))

theorem chainAllB_glue (R : Job → Job → Bool) :
    ∀ (l1 : List Job) (a : Job) (l2 : List Job),
      chainAllB R (a :: l1) = true →
      chainAllB R (lastD (a :: l1) a :: l2) = true →
      chainAllB R (a :: l1 ++ l2) = true := by
  intro l1
  induction l1 with
  | nil =>
    intro a l2 _ h2
    exact h2
  | cons c l1 ih =>
    intro a l2 h1 h2
    have h1' : R a c = true ∧ chainAllB R (c :: l1) = true := by
      simpa [chainAllB] using h1
    have h2' : chainAllB R (lastD (c :: l1) c :: l2) = true := h2
    have hrec := ih c l2 h1'.2 h2'
    show (R a c && chainAllB R (c :: (l1 ++ l2))) = true
    rw [Bool.and_eq_true]
    exact ⟨h1'.1, hrec⟩

theorem lastD_append_cons :
    ∀ (l1 : List Job) (a : Job) (l2 : List Job),
      lastD (a :: l1 ++ l2) a = lastD l2 (lastD (a :: l1) a) := by
  intro l1
  induction l1 with
  | nil => intro a l2; rfl
  | cons c l1 ih => intro a l2; exact ih c l2

/-! ## Equation lemmas for the strategy loop projections -/

theorem slTrace_nil (j : Job) (le : Option String) : slTrace j le [] = [] := rfl

theorem slJob_nil (j : Job) (le : Option String) : slJob j le [] = j := rfl

theorem slRes_nil (j : Job) (le : Option String) :
    slRes j le [] = Except.error le := rfl

theorem slTrace_ok (j : Job) (le : Option String) (s : StratOutcome)
    (rest : List StratOutcome) (p : String) (h : s.result = Except.ok p) :
    slTrace j le (s :: rest) = (playEvents j s.events).2 := by
  simp [slTrace, stratLoop, h]

theorem slJob_ok (j : Job) (le : Option String) (s : StratOutcome)
    (rest : List StratOutcome) (p : String) (h : s.result = Except.ok p) :
    slJob j le (s :: rest) = (playEvents j s.events).1 := by
  simp [slJob, stratLoop, h]

theorem slRes_ok (j : Job) (le : Option String) (s : StratOutcome)
    (rest : List StratOutcome) (p : String) (h : s.result = Except.ok p) :
    slRes j le (s :: rest) = Except.ok p := by
  simp [slRes, stratLoop, h]

theorem slTrace_err (j : Job) (le : Option String) (s : StratOutcome)
    (rest : List StratOutcome) (m : String) (h : s.result = Except.error m) :
    slTrace j le (s :: rest) =
      (playEvents j s.events).2 ++ slTrace (playEvents j s.events).1 (some m) rest := by
  simp [slTrace, stratLoop, h]

theorem slJob_err (j : Job) (le : Option String) (s : StratOutcome)
    (rest : List StratOutcome) (m : String) (h : s.result = Except.error m) :
    slJob j le (s :: rest) = slJob (playEvents j s.events).1 (some m) rest := by
  simp [slJob, stratLoop, h]

theorem slRes_err (j : Job) (le : Option String) (s : StratOutcome)
    (rest : List StratOutcome) (m : String) (h : s.result = Except.error m) :
    slRes j le (s :: rest) = slRes (playEvents j s.events).1 (some m) rest := by
  simp [slRes, stratLoop, h]

theorem playEvents_inv (es : List HookEvent) :
    ∀ j : Job, activeClean j = true →
      (playEvents j es).2.all activeClean = true ∧
      chainAllB stepB (j :: (playEvents j es).2) = true ∧
      lastD (j :: (playEvents j es).2) j = (playEvents j es).1 := by
  induction es with
  | nil => intro j h; exact ⟨rfl, rfl, rfl⟩
  | cons e es ih =>
    intro j h
    obtain ⟨h1, h2⟩ := applyHook_ok j e h
    obtain ⟨ha, hc, hl⟩ := ih (applyHook j e) h1
    refine ⟨?_, ?_, ?_⟩
    · show ((applyHook j e :: (playEvents (applyHook j e) es).2).all activeClean) = true
      rw [List.all_cons, h1, ha]
      rfl
    · show (stepB j (applyHook j e) &&
        chainAllB stepB (applyHook j e :: (playEvents (applyHook j e) es).2)) = true
      simp [h2, hc]
    · exact hl

theorem stratLoop_inv (ss : List StratOutcome) :
    ∀ (j : Job) (le : Option String), activeClean j = true →
      (slTrace j le ss).all activeClean = true ∧
      chainAllB stepB (j :: slTrace j le ss) = true ∧
      lastD (j :: slTrace j le ss) j = slJob j le ss := by
  induction ss with
  | nil =>
    intro j le h
    exact ⟨rfl, rfl, rfl⟩
  | cons s rest ih =>
    intro j le h
    obtain ⟨pa, pc, pl⟩ := playEvents_inv s.events j h
    cases hres : s.result with
    | ok p =>
      rw [slTrace_ok j le s rest p hres, slJob_ok j le s rest p hres]
      exact ⟨pa, pc, pl⟩
    | error m =>
      have hjf : activeClean (playEvents j s.events).1 = true := by
        rw [← pl]
        exact lastD_pred activeClean (playEvents j s.events).2 j h pa
      obtain ⟨ra, rc, rl⟩ := ih (playEvents j s.events).1 (some m) hjf
      rw [slTrace_err j le s rest m hres, slJob_err j le s rest m hres]
      refine ⟨?_, ?_, ?_⟩
      · rw [List.all_append, pa, ra]
        rfl
      · apply chainAllB_glue stepB _ j _ pc
        rw [pl]
        exact rc
      · have hrw := lastD_append_cons (playEvents j s.events).2 j
          (slTrace (playEvents j s.events).1 (some m) rest)
        have hr2 : lastD (slTrace (playEvents j s.events).1 (some m) rest)
            (lastD (j :: (playEvents j s.events).2) j)
            = slJob (playEvents j s.events).1 (some m) rest := by
          rw [pl]
          exact rl
        exact hrw.trans hr2

/-! ## Fallback behaviour of the strategy loop -/

/-- The strategy raised. -/
def isErrB : Except String String → Bool
  | .error _ => true
  | .ok _ => false

/-- Every strategy of the list raises. -/
def allFailB (l : List StratOutcome) : Bool := l.all fun s => isErrB s.result

theorem isErrB_exists (r : Except String String) (h : isErrB r = true) :
    ∃ m, r = Except.error m := by
  cases r with
  | ok p => simp [isErrB] at h
  | error m => exact ⟨m, rfl⟩

/-- Strategies after the first succeeding one are never attempted: the whole
loop ignores them. -/
theorem stratLoop_skip (pre : List StratOutcome) :
    ∀ (j : Job) (le : Option String) (s : StratOutcome)
      (post : List StratOutcome) (p : String),
      allFailB pre = true → s.result = Except.ok p →
      stratLoop j le (pre ++ s :: post) = stratLoop j le (pre ++ [s]) := by
  induction pre with
  | nil =>
    intro j le s post p _ hok
    show stratLoop j le (s :: post) = stratLoop j le [s]
    simp [stratLoop, hok]
  | cons x xs ih =>
    intro j le s post p hf hok
    have hx : isErrB x.result = true ∧ allFailB xs = true := by
      simpa [allFailB] using hf
    obtain ⟨m, hm⟩ := isErrB_exists x.result hx.1
    show stratLoop j le (x :: (xs ++ s :: post)) = stratLoop j le (x :: (xs ++ [s]))
    simp only [stratLoop, hm]
    rw [ih (playEvents j x.events).1 (some m) s post p hx.2 hok]

/-- With all earlier strategies failing, the loop returns the first
success. -/
theorem slRes_firstOk (pre : List StratOutcome) :
    ∀ (j : Job) (le : Option String) (s : StratOutcome) (p : String),
      allFailB pre = true → s.result = Except.ok p →
      slRes j le (pre ++ [s]) = Except.ok p := by
  induction pre with
  | nil =>
    intro j le s p _ hok
    show slRes j le [s] = Except.ok p
    exact slRes_ok j le s [] p hok
  | cons x xs ih =>
    intro j le s p hf hok
    have hx : isErrB x.result = true ∧ allFailB xs = true := by
      simpa [allFailB] using hf
    obtain ⟨m, hm⟩ := isErrB_exists x.result hx.1
    show slRes j le (x :: (xs ++ [s])) = Except.ok p
    rw [slRes_err j le x (xs ++ [s]) m hm]
    exact ih (playEvents j x.events).1 (some m) s p hx.2 hok

/-- With every strategy failing, the loop re-raises the error of the last
one. -/
theorem slRes_allFail (ss : List StratOutcome) :
    ∀ (j : Job) (le : Option String) (s : StratOutcome) (m : String),
      allFailB ss = true → ss.getLast? = some s → s.result = Except.error m →
      slRes j le ss = Except.error (some m) := by
  induction ss with
  | nil => intro j le s m _ hl _; simp at hl
  | cons x xs ih =>
    intro j le s m hf hl hr
    have hx : isErrB x.result = true ∧ allFailB xs = true := by
      simpa [allFailB] using hf
    obtain ⟨m0, hm0⟩ := isErrB_exists x.result hx.1
    cases xs with
    | nil =>
      have hxs : x = s := by simpa using hl
      subst hxs
      have : m0 = m := by
        rw [hm0] at hr
        exact (Except.error.inj hr)
      subst this
      rw [slRes_err j le x [] m0 hm0]
      exact slRes_nil _ _
    | cons y ys =>
      have hl2 : (y :: ys).getLast? = some s := by
        simpa using hl
      rw [slRes_err j le x (y :: ys) m0 hm0]
      exact ih (playEvents j x.events).1 (some m0) s m hx.2 hl2 hr

/-! ## Structure of the run's history -/

theorem lastD_concat2 (a b c : Job) :
    ∀ (l : List Job), lastD (a :: l ++ [b, c]) a = c := by
  intro l
  induction l generalizing a with
  | nil => rfl
  | cons x xs ih => exact ih x

theorem lastD_concat1 (a b : Job) :
    ∀ (l : List Job), lastD (a :: l ++ [b]) a = b := by
  intro l
  induction l generalizing a with
  | nil => rfl
  | cons x xs ih => exact ih x

/-- On acquisition success the run's history: `starting`, hook states, the
`postprocessing` merge and the `finished` merge. -/
theorem runDownload_ok (env : PostEnv) (strats : List StratOutcome) (p : String)
    (h : slRes startJob none strats = Except.ok p) :
    runDownload env strats =
      startJob :: slTrace startJob none strats ++
        [postJob (slJob startJob none strats),
         finishJob (postJob (slJob startJob none strats)) (postPath env p)] := by
  unfold runDownload
  rw [h]

/-- On total failure the run's history ends with the fresh error record. -/
theorem runDownload_err (env : PostEnv) (strats : List StratOutcome) (m : String)
    (h : slRes startJob none strats = Except.error (some m)) :
    runDownload env strats =
      startJob :: slTrace startJob none strats ++ [errorJob (augmentError m)] := by
  unfold runDownload
  rw [h]

/-! ## Edge facts and post-processing facts -/

theorem active_edge_post (s : Status) (h : activeStatus s = true) :
    (extendedEdge s Status.postprocessing && !isTerminal s) = true := by
  cases s <;> simp_all [activeStatus, extendedEdge, spec43Edge, isTerminal]

theorem active_edge_error (s : Status) (h : activeStatus s = true) :
    (extendedEdge s Status.error && !isTerminal s) = true := by
  cases s <;> simp_all [activeStatus, extendedEdge, spec43Edge, isTerminal]

theorem normalize_mp4_path (b : Bool) (t : ToolRun) (fs : FS) (p : String) :
    (normalize_mp4 b t fs p).2 = p := by
  unfold normalize_mp4
  by_cases h1 : strEndsWith (strToLower p) ".mp4" = false
  · rw [if_pos h1]
  · rw [if_neg h1]
    by_cases h2 : b = false
    · rw [if_pos h2]
    · rw [if_neg h2]
      cases t with
      | completed n o =>
        cases n with
        | zero =>
          cases hg : fsGet (toolWrite fs (fixedName p) o) (fixedName p) with
          | some c => simp [hg]
          | none => simp [hg]
        | succ k => rfl
      | raised o => rfl

theorem ensure_quicktime_compatible_path (b : Bool) (vc ac : String) (t : ToolRun)
    (fs : FS) (p : String) :
    (ensure_quicktime_compatible b vc ac t fs p).2 = p := by
  unfold ensure_quicktime_compatible
  by_cases h1 : b = false
  · rw [if_pos h1]
  · rw [if_neg h1]
    by_cases h2 : ((QUICKTIME_OK_VC.contains (strToLower vc) || strToLower vc == "") &&
        (QUICKTIME_OK_AC.contains (strToLower ac) || strToLower ac == "")) = true
    · rw [if_pos h2]
    · rw [if_neg h2]
      cases t with
      | completed n o =>
        cases n with
        | zero =>
          cases hg : fsGet (toolWrite fs (qtName p) o) (qtName p) with
          | some c => simp [hg]
          | none => simp [hg]
        | succ k => rfl
      | raised o => rfl

theorem ensure_compatible_format_path (b : Bool) (t : ToolRun) (fs : FS)
    (p : String) :
    (ensure_compatible_format b t fs p).2 = p := by
  unfold ensure_compatible_format
  by_cases h1 : b = false
  · rw [if_pos h1]
  · rw [if_neg h1]
    by_cases h2 : (strToLower (splitext p).2 == ".mp4") = false
    · rw [if_pos h2]
    · rw [if_neg h2]
      cases t with
      | completed n o =>
        cases n with
        | zero =>
          cases hg : fsGet (toolWrite fs (tempName p) o) (tempName p) with
          | some c =>
            cases hp : fsGet (toolWrite fs (tempName p) o) p with
            | some d => simp [hg, hp]
            | none => simp [hg, hp]
          | none => simp [hg]
        | succ k => rfl
      | raised o => rfl

/-- The path recorded in a finished job is the downloaded path itself. -/
theorem postPath_id (env : PostEnv) (p : String) : postPath env p = p := by
  unfold postPath
  rw [normalize_mp4_path, ensure_quicktime_compatible_path]

/-! ## Result/error exclusivity facts -/

theorem activeClean_error_none (j : Job) (h : activeClean j = true) :
    j.error = none := by
  simp [activeClean, activeStatus, cleanJob] at h
  tauto

theorem clean_exclusive (j : Job) (h : activeClean j = true) :
    resultErrorExclusive j = true := by
  simp [resultErrorExclusive, activeClean_error_none j h]

theorem exclusive_postJob (jf : Job) (h : activeClean jf = true) :
    resultErrorExclusive (postJob jf) = true := by
  simp [resultErrorExclusive, postJob, activeClean_error_none jf h]

theorem exclusive_finishJob (jf : Job) (p2 : String) (h : activeClean jf = true) :
    resultErrorExclusive (finishJob (postJob jf) p2) = true := by
  simp [resultErrorExclusive, finishJob, postJob, activeClean_error_none jf h]

theorem exclusive_errorJob (m : String) :
    resultErrorExclusive (errorJob m) = true := rfl

theorem activeClean_status (j : Job) (h : activeClean j = true) :
    activeStatus j.status = true := by
  simp [activeClean, activeStatus, cleanJob] at h
  simp [activeStatus]
  tauto

theorem runDownload_errNone (env : PostEnv) (strats : List StratOutcome)
    (h : slRes startJob none strats = Except.error none) :
    runDownload env strats =
      startJob :: slTrace startJob none strats ++ [errorJob unboundLocalMsg] := by
  unfold runDownload
  rw [h]

/-- Every adjacent transition in a job's full history takes an extended
edge from a non-terminal source. -/
theorem trace_chain (env : PostEnv) (strats : List StratOutcome) :
    chainAllB stepB (fullTrace env strats) = true := by
  obtain ⟨ta, tc, tl⟩ := stratLoop_inv strats startJob none rfl
  have hjf : activeClean (slJob startJob none strats) = true := by
    rw [← tl]
    exact lastD_pred activeClean (slTrace startJob none strats) startJob rfl ta
  have hjfs : activeStatus (slJob startJob none strats).status = true :=
    activeClean_status _ hjf
  cases hres : slRes startJob none strats with
  | ok p =>
    rw [fullTrace, runDownload_ok env strats p hres]
    have e1 : stepB (slJob startJob none strats)
        (postJob (slJob startJob none strats)) = true := by
      show (extendedEdge (slJob startJob none strats).status Status.postprocessing &&
        !isTerminal (slJob startJob none strats).status) = true
      exact active_edge_post _ hjfs
    have e2 : stepB (postJob (slJob startJob none strats))
        (finishJob (postJob (slJob startJob none strats)) (postPath env p)) = true := rfl
    have hglue : chainAllB stepB ((startJob :: slTrace startJob none strats) ++
        [postJob (slJob startJob none strats),
         finishJob (postJob (slJob startJob none strats)) (postPath env p)]) = true := by
      apply chainAllB_glue stepB (slTrace startJob none strats) startJob _ tc
      rw [tl]
      show (stepB (slJob startJob none strats) (postJob (slJob startJob none strats)) &&
        chainAllB stepB (postJob (slJob startJob none strats) ::
          [finishJob (postJob (slJob startJob none strats)) (postPath env p)])) = true
      rw [e1]
      show (true && (stepB (postJob (slJob startJob none strats))
        (finishJob (postJob (slJob startJob none strats)) (postPath env p)) &&
          chainAllB stepB [finishJob (postJob (slJob startJob none strats))
            (postPath env p)])) = true
      rw [e2]
      rfl
    show (stepB queuedJob startJob && chainAllB stepB
      (startJob :: (slTrace startJob none strats ++
        [postJob (slJob startJob none strats),
         finishJob (postJob (slJob startJob none strats)) (postPath env p)]))) = true
    rw [Bool.and_eq_true]
    exact ⟨rfl, hglue⟩
  | error om =>
    cases om with
    | some m =>
      rw [fullTrace, runDownload_err env strats m hres]
      have e1 : stepB (slJob startJob none strats) (errorJob (augmentError m)) = true := by
        show (extendedEdge (slJob startJob none strats).status Status.error &&
          !isTerminal (slJob startJob none strats).status) = true
        exact active_edge_error _ hjfs
      have hglue : chainAllB stepB ((startJob :: slTrace startJob none strats) ++
          [errorJob (augmentError m)]) = true := by
        apply chainAllB_glue stepB (slTrace startJob none strats) startJob _ tc
        rw [tl]
        show (stepB (slJob startJob none strats) (errorJob (augmentError m)) &&
          chainAllB stepB [errorJob (augmentError m)]) = true
        rw [e1]
        rfl
      show (stepB queuedJob startJob && chainAllB stepB
        (startJob :: (slTrace startJob none strats ++ [errorJob (augmentError m)]))) = true
      rw [Bool.and_eq_true]
      exact ⟨rfl, hglue⟩
    | none =>
      rw [fullTrace, runDownload_errNone env strats hres]
      have e1 : stepB (slJob startJob none strats) (errorJob unboundLocalMsg) = true := by
        show (extendedEdge (slJob startJob none strats).status Status.error &&
          !isTerminal (slJob startJob none strats).status) = true
        exact active_edge_error _ hjfs
      have hglue : chainAllB stepB ((startJob :: slTrace startJob none strats) ++
          [errorJob unboundLocalMsg]) = true := by
        apply chainAllB_glue stepB (slTrace startJob none strats) startJob _ tc
        rw [tl]
        show (stepB (slJob startJob none strats) (errorJob unboundLocalMsg) &&
          chainAllB stepB [errorJob unboundLocalMsg]) = true
        rw [e1]
        rfl
      show (stepB queuedJob startJob && chainAllB stepB
        (startJob :: (slTrace startJob none strats ++ [errorJob unboundLocalMsg]))) = true
      rw [Bool.and_eq_true]
      exact ⟨rfl, hglue⟩

/-- Every store state of a job's full history carries at most one of
result and error. -/
theorem trace_exclusive (env : PostEnv) (strats : List StratOutcome) :
    (fullTrace env strats).all resultErrorExclusive = true := by
  obtain ⟨ta, _, tl⟩ := stratLoop_inv strats startJob none rfl
  have hjf : activeClean (slJob startJob none strats) = true := by
    rw [← tl]
    exact lastD_pred activeClean (slTrace startJob none strats) startJob rfl ta
  have hmem : ∀ x ∈ slTrace startJob none strats, resultErrorExclusive x = true :=
    fun x hx => clean_exclusive x (List.all_eq_true.mp ta x hx)
  apply List.all_eq_true.mpr
  intro x hx
  cases hres : slRes startJob none strats with
  | ok p =>
    rw [fullTrace, runDownload_ok env strats p hres] at hx
    simp [List.mem_cons, List.mem_append] at hx
    rcases hx with h1 | h1 | h1 | h1 | h1
    · rw [h1]; rfl
    · rw [h1]; rfl
    · exact hmem x h1
    · rw [h1]; exact exclusive_postJob _ hjf
    · rw [h1]; exact exclusive_finishJob _ _ hjf
  | error om =>
    cases om with
    | some m =>
      rw [fullTrace, runDownload_err env strats m hres] at hx
      simp [List.mem_cons, List.mem_append] at hx
      rcases hx with h1 | h1 | h1 | h1
      · rw [h1]; rfl
      · rw [h1]; rfl
      · exact hmem x h1
      · rw [h1]; exact exclusive_errorJob _
    | none =>
      rw [fullTrace, runDownload_errNone env strats hres] at hx
      simp [List.mem_cons, List.mem_append] at hx
      rcases hx with h1 | h1 | h1 | h1
      · rw [h1]; rfl
      · rw [h1]; rfl
      · exact hmem x h1
      · rw [h1]; exact exclusive_errorJob _

theorem lastJob_fullShape1 (a b : Job) (l : List Job) :
    lastJob (queuedJob :: ((a :: l) ++ [b])) = b := by
  show lastD (l ++ [b]) a = b
  exact lastD_concat1 a b l

theorem lastJob_fullShape2 (a b c : Job) (l : List Job) :
    lastJob (queuedJob :: ((a :: l) ++ [b, c])) = c := by
  show lastD (l ++ [b, c]) a = c
  exact lastD_concat2 a b c l

theorem active_notErr (j : Job) (h : activeClean j = true) : notErrB j = true := by
  have hs := activeClean_status j h
  cases hst : j.status <;> simp_all [activeStatus, notErrB]

/-- When all strategies before `s` fail and `s` succeeds: the strategies
after `s` are irrelevant, the job finishes, records the downloaded path,
and never passes through `error`. -/
theorem run_success (env : PostEnv) (pre : List StratOutcome) (s : StratOutcome)
    (post : List StratOutcome) (p : String)
    (hf : allFailB pre = true) (hok : s.result = Except.ok p) :
    runDownload env (pre ++ s :: post) = runDownload env (pre ++ [s]) ∧
    lastStatus (fullTrace env (pre ++ s :: post)) = Status.finished ∧
    lastFilepath (fullTrace env (pre ++ s :: post)) = some p ∧
    (fullTrace env (pre ++ s :: post)).all notErrB = true := by
  have hsl := stratLoop_skip pre startJob none s post p hf hok
  have heq : runDownload env (pre ++ s :: post) = runDownload env (pre ++ [s]) := by
    unfold runDownload slRes slTrace slJob
    rw [hsl]
  have hres : slRes startJob none (pre ++ [s]) = Except.ok p :=
    slRes_firstOk pre startJob none s p hf hok
  have hlist := runDownload_ok env (pre ++ [s]) p hres
  have hft : fullTrace env (pre ++ s :: post) =
      queuedJob :: ((startJob :: slTrace startJob none (pre ++ [s])) ++
        [postJob (slJob startJob none (pre ++ [s])),
         finishJob (postJob (slJob startJob none (pre ++ [s]))) (postPath env p)]) := by
    show queuedJob :: runDownload env (pre ++ s :: post) = _
    rw [heq, hlist]
  obtain ⟨ta, _, tl⟩ := stratLoop_inv (pre ++ [s]) startJob none rfl
  have hjf : activeClean (slJob startJob none (pre ++ [s])) = true := by
    rw [← tl]
    exact lastD_pred activeClean (slTrace startJob none (pre ++ [s])) startJob rfl ta
  refine ⟨heq, ?_, ?_, ?_⟩
  · show (lastJob (fullTrace env (pre ++ s :: post))).status = Status.finished
    rw [hft, lastJob_fullShape2]
    rfl
  · show (lastJob (fullTrace env (pre ++ s :: post))).filepath = some p
    rw [hft, lastJob_fullShape2]
    show some (postPath env p) = some p
    rw [postPath_id]
  · rw [hft]
    apply List.all_eq_true.mpr
    intro x hx
    simp [List.mem_cons, List.mem_append] at hx
    rcases hx with h1 | h1 | h1 | h1 | h1
    · rw [h1]; rfl
    · rw [h1]; rfl
    · exact active_notErr x (List.all_eq_true.mp ta x h1)
    · rw [h1]; rfl
    · rw [h1]; rfl

/-- When every strategy fails, the job ends in `error` and the recorded
message is the last strategy's message passed through `augmentError`. -/
theorem run_allFail (env : PostEnv) (strats : List StratOutcome) (s : StratOutcome)
    (m : String) (hf : allFailB strats = true) (hl : strats.getLast? = some s)
    (hr : s.result = Except.error m) :
    lastStatus (fullTrace env strats) = Status.error ∧
    lastError (fullTrace env strats) = some (augmentError m) := by
  have hres := slRes_allFail strats startJob none s m hf hl hr
  have hlist := runDownload_err env strats m hres
  have hft : fullTrace env strats =
      queuedJob :: ((startJob :: slTrace startJob none strats) ++
        [errorJob (augmentError m)]) := by
    show queuedJob :: runDownload env strats = _
    rw [hlist]
  constructor
  · show (lastJob (fullTrace env strats)).status = Status.error
    rw [hft, lastJob_fullShape1]
    rfl
  · show (lastJob (fullTrace env strats)).error = some (augmentError m)
    rw [hft, lastJob_fullShape1]
    rfl

/-! ## Progress broadcaster (`app/main.py` `_broadcast_loop`, `_enqueue_event`,
`ws_progress`)

One job and one observer are modelled.  The state carries the job's
`progress_store` entry, the job's `asyncio.Queue` (`none` when popped), the
liveness of the `_broadcast_loop` task, whether the producing
`run_download_async` task has ended (it ends right after writing a terminal
record), the observer's registration in `ws_clients`, and the payloads
delivered to the observer in order. -/

/-- Broadcaster-side state for one job id and one observer. -/
structure BState where
  store : Option Job
  queue : Option (List Job)
  loopAlive : Bool
  producerDone : Bool
  subscribed : Bool
  delivered : List Job
deriving DecidableEq

/-- Payload statuses on which `_broadcast_loop` terminates (line 70). -/
def isTermPayload (j : Job) : Bool :=
  j.status == Status.finished || j.status == Status.error

/-- Timeout-branch exit condition of `_broadcast_loop` (lines 51-56): no
listener and the job's last known status missing, `finished` or `error`. -/
def timeoutExit (sub : Bool) (st : Option Status) : Bool :=
  !sub && (match st with
    | none => true
    | some Status.finished => true
    | some Status.error => true
    | _ => false)

/-- One scheduler-visible action of the broadcast subsystem. -/
inductive BAct
  /-- The producer writes a store record and enqueues it
  (`progress_store[...] = ...; _enqueue_event(...)`); a no-op once the
  producer has ended. -/
  | produce (j : Job)
  /-- One iteration of `_broadcast_loop`: dequeue and fan out a payload,
  breaking on a terminal payload, or run the timeout branch on an empty
  queue; its `finally` pops the queue and the client set. -/
  | poll
  /-- `ws_progress`: accept, register in `ws_clients`, and immediately send
  the current store record if any (lines 582-592). -/
  | subscribe
  /-- Client disconnect: `ws_clients[...].discard(websocket)`. -/
  | disconnect

/-- Semantics of one action. -/
def applyAct (s : BState) : BAct → BState
  | .produce j =>
    if s.producerDone then s
    else
      { s with store := some j,
               queue := some ((s.queue.getD []) ++ [j]),
               producerDone := isTermPayload j }
  | .poll =>
    if s.loopAlive = false then s
    else
      match s.queue with
      | some (j :: rest) =>
        if isTermPayload j then
          { s with queue := none, loopAlive := false, subscribed := false,
                   delivered := if s.subscribed then s.delivered ++ [j] else s.delivered }
        else
          { s with queue := some rest,
                   delivered := if s.subscribed then s.delivered ++ [j] else s.delivered }
      | some [] =>
        if timeoutExit s.subscribed (s.store.map Job.status) then
          { s with queue := none, loopAlive := false, subscribed := false }
        else s
      | none =>
        if timeoutExit s.subscribed (s.store.map Job.status) then
          { s with queue := none, loopAlive := false, subscribed := false }
        else s
  | .subscribe =>
    if s.subscribed then s
    else
      { s with subscribed := true,
               delivered := s.delivered ++
                 (match s.store with | some j => [j] | none => []) }
  | .disconnect => { s with subscribed := false }

/-- Run a list of actions from a state. -/
def runActs (s : BState) : List BAct → BState
  | [] => s
  | a :: acts => runActs (applyAct s a) acts

/-- The action list touches `subscribe` nowhere. -/
def noSubscribeActs : List BAct → Bool
  | [] => true
  | BAct.subscribe :: _ => false
  | _ :: acts => noSubscribeActs acts

/-- The per-job queue holds no payload. -/
def queueDrained (s : BState) : Bool :=
  match s.queue with
  | none => true
  | some [] => true
  | some (_ :: _) => false

/-- Deliveries only grow: every run appends to the delivered list. -/
theorem delivered_monotone (acts : List BAct) :
    ∀ s : BState, ∃ t : List Job, (runActs s acts).delivered = s.delivered ++ t := by
  induction acts with
  | nil => intro s; exact ⟨[], by simp [runActs]⟩
  | cons a acts ih =>
    intro s
    obtain ⟨t, ht⟩ := ih (applyAct s a)
    have hstep : ∃ u : List Job, (applyAct s a).delivered = s.delivered ++ u := by
      cases a with
      | produce j =>
        by_cases h : s.producerDone
        · exact ⟨[], by simp [applyAct, h]⟩
        · exact ⟨[], by simp [applyAct, h]⟩
      | poll =>
        by_cases h : s.loopAlive = false
        · exact ⟨[], by simp [applyAct, h]⟩
        · cases hq : s.queue with
          | none =>
            by_cases hto : timeoutExit s.subscribed (s.store.map Job.status) = true
            · exact ⟨[], by simp [applyAct, h, hq, hto]⟩
            · exact ⟨[], by simp [applyAct, h, hq, hto]⟩
          | some l =>
            cases l with
            | nil =>
              by_cases hto : timeoutExit s.subscribed (s.store.map Job.status) = true
              · exact ⟨[], by simp [applyAct, h, hq, hto]⟩
              · exact ⟨[], by simp [applyAct, h, hq, hto]⟩
            | cons j rest =>
              by_cases hterm : isTermPayload j = true
              · by_cases hsub : s.subscribed
                · exact ⟨[j], by simp [applyAct, h, hq, hterm, hsub]⟩
                · exact ⟨[], by simp [applyAct, h, hq, hterm, hsub]⟩
              · by_cases hsub : s.subscribed
                · exact ⟨[j], by simp [applyAct, h, hq, hterm, hsub]⟩
                · exact ⟨[], by simp [applyAct, h, hq, hterm, hsub]⟩
      | subscribe =>
        by_cases h : s.subscribed
        · exact ⟨[], by simp [applyAct, h]⟩
        · cases hst : s.store with
          | none => exact ⟨[], by simp [applyAct, h, hst]⟩
          | some j => exact ⟨[j], by simp [applyAct, h, hst]⟩
      | disconnect => exact ⟨[], by simp [applyAct]⟩
    obtain ⟨u, hu⟩ := hstep
    refine ⟨u ++ t, ?_⟩
    show (runActs (applyAct s a) acts).delivered = s.delivered ++ (u ++ t)
    rw [ht, hu, List.append_assoc]

/-- After the producer ended with the queue drained, non-subscribe actions
neither deliver anything nor refill the queue. -/
theorem settled_stable (acts : List BAct) :
    ∀ s : BState, s.producerDone = true → queueDrained s = true →
      noSubscribeActs acts = true →
      (runActs s acts).delivered = s.delivered := by
  induction acts with
  | nil => intro s _ _ _; rfl
  | cons a acts ih =>
    intro s hdone hq hns
    have hstep : (applyAct s a).delivered = s.delivered ∧
        (applyAct s a).producerDone = true ∧ queueDrained (applyAct s a) = true := by
      cases a with
      | produce j => simp [applyAct, hdone, hq]
      | poll =>
        by_cases h : s.loopAlive = false
        · simp [applyAct, h, hdone, hq]
        · cases hqe : s.queue with
          | none =>
            by_cases hto : timeoutExit s.subscribed (s.store.map Job.status) = true
            · simp [applyAct, h, hqe, hto, hdone, queueDrained]
            · simp [applyAct, h, hqe, hto, hdone, hq]
          | some l =>
            cases l with
            | nil =>
              by_cases hto : timeoutExit s.subscribed (s.store.map Job.status) = true
              · simp [applyAct, h, hqe, hto, hdone, queueDrained]
              · simp [applyAct, h, hqe, hto, hdone, hq]
            | cons j rest =>
              rw [queueDrained, hqe] at hq
              simp at hq
      | subscribe => simp [noSubscribeActs] at hns
      | disconnect => exact ⟨rfl, hdone, hq⟩
    have hns2 : noSubscribeActs acts = true := by
      cases a with
      | produce j => simpa [noSubscribeActs] using hns
      | poll => simpa [noSubscribeActs] using hns
      | subscribe => simp [noSubscribeActs] at hns
      | disconnect => simpa [noSubscribeActs] using hns
    have := ih (applyAct s a) hstep.2.1 hstep.2.2 hns2
    show (runActs (applyAct s a) acts).delivered = s.delivered
    rw [this, hstep.1]

/-! ## Admission (`app/models.py` `DownloadRequest.validate_format`,
`app/main.py` `/download`, `app/config.py` defaults) -/

/-- The shell-metacharacter blacklist of `validate_format` (line 26):
semicolon, ampersand, pipe, backquote, dollar, parentheses, newline,
carriage return. -/
def forbiddenFormatChars : List Char :=
  [';', '&', '|', Char.ofNat 96, Char.ofNat 36, '(', ')', Char.ofNat 10, Char.ofNat 13]

/-- `app/models.py` `DownloadRequest.validate_format` (lines 21-28): reject
empty or over-long selectors, then reject any selector containing a
forbidden character. -/
def validate_format (v : String) : Except String String :=
  if v = "" ∨ v.length > 500 then Except.error "Invalid format specification"
  else if v.toList.any (fun c => forbiddenFormatChars.contains c) then
    Except.error "Invalid characters in format"
  else Except.ok v

/-- `app/config.py` line 18: `rate_limit_per_minute` default. -/
def rate_limit_per_minute : Nat := 20

/-- `app/config.py` line 16: `max_concurrent_downloads` default. -/
def max_concurrent_downloads : Nat := 3

/-- Process-wide state the `/download` endpoint touches: `progress_store`,
`job_queues` and the created tasks (broadcaster and download run). -/
structure AppState where
  jobs : List (String × Job)
  queues : List String
  tasks : List String
deriving DecidableEq

/-- The state at service start. -/
def emptyApp : AppState := ⟨[], [], []⟩

/-- `app/main.py` `/download` (lines 542-553): unconditionally create the
`queued` record, ensure a queue, start the broadcaster task and the
`run_download_async` task, and return the job id.  Neither
`DownloadRequest` validation nor any rate-limit check is invoked; the
`url` and `fmt` form fields are passed through unexamined. -/
def download_endpoint (st : AppState) (url fmt jobId : String) : AppState × String :=
  ({ jobs := (jobId, queuedJob) :: st.jobs,
     queues := if st.queues.contains jobId then st.queues else jobId :: st.queues,
     tasks := jobId :: st.tasks }, jobId)

/-- `n` consecutive admissions from one client, with distinct job ids. -/
def submitRepeatedly : Nat → AppState
  | 0 => emptyApp
  | n + 1 =>
    (download_endpoint (submitRepeatedly n) "https://www.youtube.com/watch?v=x"
      "137+140" (toString n)).1

/-! ## Result retrieval (`app/main.py` `fetch_file`, lines 561-576) -/

/-- Environment of a fetch: the progress store and the set of paths present
on disk. -/
structure FetchEnv where
  store : List (String × Job)
  existing : List String
deriving DecidableEq

/-- Outcome of `fetch_file`: an `HTTPException` with status code and detail,
or a `FileResponse` streaming a path under a download filename. -/
inductive FetchResult
  | http (code : Nat) (detail : String)
  | file (path : String) (filename : String)
deriving DecidableEq

/-- Store lookup (`progress_store.get(job_id)`). -/
def lookupJob : List (String × Job) → String → Option Job
  | [], _ => none
  | (i, j) :: rest, jid => if jid = i then some j else lookupJob rest jid

/-- `app/main.py` `fetch_file`: 404 `"File is not ready yet"` when the job
is unknown or not `finished`; 404 `"File not found"` when no file path is
recorded, the path is empty, or the file is missing on disk; otherwise the
file stream.  The environment is returned unchanged: no removal of the job
is scheduled on any path. -/
def fetch_file (env : FetchEnv) (jobId : String) : FetchResult × FetchEnv :=
  match lookupJob env.store jobId with
  | none => (FetchResult.http 404 "File is not ready yet", env)
  | some info =>
    if info.status ≠ Status.finished then
      (FetchResult.http 404 "File is not ready yet", env)
    else
      match info.filepath with
      | none => (FetchResult.http 404 "File not found", env)
      | some fp =>
        if fp = "" ∨ env.existing.contains fp = false then
          (FetchResult.http 404 "File not found", env)
        else (FetchResult.file fp (basename fp), env)

/-- HTTP status code of a fetch outcome, when it is an error. -/
def fetchCode : FetchResult → Option Nat
  | FetchResult.http c _ => some c
  | FetchResult.file _ _ => none

/-! ## Concurrency limiter (`app/services/downloader.py` lines 19-21 and
247-250, `app/main.py` lines 542-553)

`VideoDownloader.download` wraps `_download_internal` in
`async with self.semaphore`, so one permit is held for the whole call and
given back on every exit (return or raise).  The `/download` endpoint of
`app/main.py`, however, spawns `run_download_async` directly and touches no
semaphore.  Both kinds of download are modelled in one transition system
counting available permits and active downloads of each kind. -/

/-- Permit pool and active download counts. -/
structure SemState where
  permits : Nat
  activeSem : Nat
  activeMain : Nat
deriving DecidableEq

/-- Initial state: a full pool of `cap` permits, nothing active. -/
def semInit (cap : Nat) : SemState := ⟨cap, 0, 0⟩

/-- Scheduler steps of the two download paths. -/
inductive SemStep : SemState → SemState → Prop
  /-- `async with self.semaphore` entry: a `VideoDownloader.download` call
  starts only by taking a permit. -/
  | acquire (p a m : Nat) : SemStep ⟨p + 1, a, m⟩ ⟨p, a + 1, m⟩
  /-- `async with` exit on any path (return or raise): the permit is
  returned. -/
  | release (p a m : Nat) : SemStep ⟨p, a + 1, m⟩ ⟨p + 1, a, m⟩
  /-- `/download` in `app/main.py`: `asyncio.create_task(run_download_async(...))`
  starts a download without touching the semaphore. -/
  | startMain (p a m : Nat) : SemStep ⟨p, a, m⟩ ⟨p, a, m + 1⟩
  /-- A `run_download_async` task ends. -/
  | finishMain (p a m : Nat) : SemStep ⟨p, a, m + 1⟩ ⟨p, a, m⟩

/-- States reachable from the initial state under any interleaving. -/
inductive SemReachable (cap : Nat) : SemState → Prop
  | init : SemReachable cap (semInit cap)
  | step {s t : SemState} : SemReachable cap s → SemStep s t → SemReachable cap t

/-- Downloads running at a moment, over both paths. -/
def totalActive (s : SemState) : Nat := s.activeSem + s.activeMain

/-- The semaphore bounds the downloads routed through it: permits plus
semaphore-held downloads is the configured capacity in every reachable
state. -/
theorem sem_invariant (cap : Nat) (s : SemState) (h : SemReachable cap s) :
    s.permits + s.activeSem = cap ∧ s.activeSem ≤ cap := by
  induction h with
  | init => simp [semInit]
  | step hr hs ih =>
    cases hs with
    | acquire p a m =>
      refine ⟨?_, ?_⟩ <;> simp at ih ⊢ <;> omega
    | release p a m =>
      refine ⟨?_, ?_⟩ <;> simp at ih ⊢ <;> omega
    | startMain p a m =>
      refine ⟨?_, ?_⟩ <;> simp at ih ⊢ <;> omega
    | finishMain p a m =>
      refine ⟨?_, ?_⟩ <;> simp at ih ⊢ <;> omega

/-- Arbitrarily many endpoint-spawned downloads are reachable. -/
theorem sem_main_unbounded (cap : Nat) :
    ∀ n : Nat, SemReachable cap ⟨cap, 0, n⟩ := by
  intro n
  induction n with
  | zero => exact SemReachable.init
  | succ k ih => exact SemReachable.step ih (SemStep.startMain cap 0 k)

/-! ## Preservation facts of the post-processing steps -/

theorem fsGet_toolWrite_ne (fs : FS) (target q : String) (o : Option Nat)
    (h : q ≠ target) : fsGet (toolWrite fs target o) q = fsGet fs q := by
  cases o with
  | none => rfl
  | some c =>
    show fsGet (fsWrite fs target c) q = fsGet fs q
    rw [fsGet_fsWrite, if_neg h]

theorem fsGet_remove_self (fs : FS) (p : String) :
    fsGet (fsRemove fs p) p = none := by
  rw [fsGet_fsRemove, if_pos rfl]

theorem normalize_mp4_fail (b : Bool) (t : ToolRun) (fs : FS) (p : String)
    (hfail : toolFailed t = true) :
    fsGet (normalize_mp4 b t fs p).1 p = fsGet fs p ∧
    ((normalize_mp4 b t fs p).1 = fs ∨
      fsGet (normalize_mp4 b t fs p).1 (fixedName p) = none) := by
  have hne : p ≠ fixedName p := fun h => fixedName_ne p h.symm
  unfold normalize_mp4
  by_cases h1 : strEndsWith (strToLower p) ".mp4" = false
  · rw [if_pos h1]; exact ⟨rfl, Or.inl rfl⟩
  · rw [if_neg h1]
    by_cases h2 : b = false
    · rw [if_pos h2]; exact ⟨rfl, Or.inl rfl⟩
    · rw [if_neg h2]
      cases t with
      | completed n o =>
        cases n with
        | zero => simp [toolFailed] at hfail
        | succ k =>
          constructor
          · show fsGet (fsRemove (toolWrite fs (fixedName p) o) (fixedName p)) p
              = fsGet fs p
            rw [fsGet_fsRemove, if_neg hne, fsGet_toolWrite_ne fs (fixedName p) p o hne]
          · right
            exact fsGet_remove_self _ _
      | raised o =>
        constructor
        · show fsGet (fsRemove (toolWrite fs (fixedName p) o) (fixedName p)) p
            = fsGet fs p
          rw [fsGet_fsRemove, if_neg hne, fsGet_toolWrite_ne fs (fixedName p) p o hne]
        · right
          exact fsGet_remove_self _ _

theorem ensure_quicktime_compatible_fail (b : Bool) (vc ac : String) (t : ToolRun)
    (fs : FS) (p : String) (hfail : toolFailed t = true) :
    fsGet (ensure_quicktime_compatible b vc ac t fs p).1 p = fsGet fs p ∧
    ((ensure_quicktime_compatible b vc ac t fs p).1 = fs ∨
      fsGet (ensure_quicktime_compatible b vc ac t fs p).1 (qtName p) = none) := by
  have hne : p ≠ qtName p := fun h => qtName_ne p h.symm
  unfold ensure_quicktime_compatible
  by_cases h1 : b = false
  · rw [if_pos h1]; exact ⟨rfl, Or.inl rfl⟩
  · rw [if_neg h1]
    by_cases h2 : ((QUICKTIME_OK_VC.contains (strToLower vc) || strToLower vc == "") &&
        (QUICKTIME_OK_AC.contains (strToLower ac) || strToLower ac == "")) = true
    · rw [if_pos h2]; exact ⟨rfl, Or.inl rfl⟩
    · rw [if_neg h2]
      cases t with
      | completed n o =>
        cases n with
        | zero => simp [toolFailed] at hfail
        | succ k =>
          constructor
          · show fsGet (fsRemove (toolWrite fs (qtName p) o) (qtName p)) p = fsGet fs p
            rw [fsGet_fsRemove, if_neg hne, fsGet_toolWrite_ne fs (qtName p) p o hne]
          · right
            exact fsGet_remove_self _ _
      | raised o =>
        constructor
        · show fsGet (fsRemove (toolWrite fs (qtName p) o) (qtName p)) p = fsGet fs p
          rw [fsGet_fsRemove, if_neg hne, fsGet_toolWrite_ne fs (qtName p) p o hne]
        · right
          exact fsGet_remove_self _ _

theorem ensure_compatible_format_raised (b : Bool) (o : Option Nat) (fs : FS)
    (p : String) :
    fsGet (ensure_compatible_format b (ToolRun.raised o) fs p).1 p = fsGet fs p ∧
    ((ensure_compatible_format b (ToolRun.raised o) fs p).1 = fs ∨
      fsGet (ensure_compatible_format b (ToolRun.raised o) fs p).1 (tempName p) = none) := by
  have hne : p ≠ tempName p := fun h => tempName_ne p h.symm
  unfold ensure_compatible_format
  by_cases h1 : b = false
  · rw [if_pos h1]; exact ⟨rfl, Or.inl rfl⟩
  · rw [if_neg h1]
    by_cases h2 : (strToLower (splitext p).2 == ".mp4") = false
    · rw [if_pos h2]; exact ⟨rfl, Or.inl rfl⟩
    · rw [if_neg h2]
      constructor
      · show fsGet (fsRemove (toolWrite fs (tempName p) o) (tempName p)) p = fsGet fs p
        rw [fsGet_fsRemove, if_neg hne, fsGet_toolWrite_ne fs (tempName p) p o hne]
      · right
        exact fsGet_remove_self _ _

theorem ensure_compatible_format_nonzero_keeps (b : Bool) (k : Nat) (o : Option Nat)
    (fs : FS) (p : String) :
    fsGet (ensure_compatible_format b (ToolRun.completed (k + 1) o) fs p).1 p
      = fsGet fs p := by
  have hne : p ≠ tempName p := fun h => tempName_ne p h.symm
  unfold ensure_compatible_format
  by_cases h1 : b = false
  · rw [if_pos h1]
  · rw [if_neg h1]
    by_cases h2 : (strToLower (splitext p).2 == ".mp4") = false
    · rw [if_pos h2]
    · rw [if_neg h2]
      exact fsGet_toolWrite_ne fs (tempName p) p o hne

theorem ensure_compatible_format_nonzero_artifact (k c : Nat) (fs : FS) (p : String)
    (hmp4 : (strToLower (splitext p).2 == ".mp4") = true) :
    fsGet (ensure_compatible_format true (ToolRun.completed (k + 1) (some c)) fs p).1
      (tempName p) = some c := by
  unfold ensure_compatible_format
  rw [if_neg (by simp), if_neg (by simp [hmp4])]
  show fsGet (fsWrite fs (tempName p) c) (tempName p) = some c
  rw [fsGet_fsWrite, if_pos rfl]

theorem normalize_mp4_success (c : Nat) (fs : FS) (p : String)
    (hmp4 : strEndsWith (strToLower p) ".mp4" = true) :
    fsGet (normalize_mp4 true (ToolRun.completed 0 (some c)) fs p).1 p = some c ∧
    fsGet (normalize_mp4 true (ToolRun.completed 0 (some c)) fs p).1 (fixedName p)
      = none := by
  have hne : p ≠ fixedName p := fun h => fixedName_ne p h.symm
  unfold normalize_mp4
  rw [if_neg (by simp [hmp4]), if_neg (by simp)]
  have hg : fsGet (toolWrite fs (fixedName p) (some c)) (fixedName p) = some c := by
    show fsGet (fsWrite fs (fixedName p) c) (fixedName p) = some c
    rw [fsGet_fsWrite, if_pos rfl]
  simp only [hg]
  constructor
  · show fsGet (fsRemove (fsWrite (toolWrite fs (fixedName p) (some c)) p c)
      (fixedName p)) p = some c
    rw [fsGet_fsRemove, if_neg hne, fsGet_fsWrite, if_pos rfl]
  · exact fsGet_remove_self _ _

/-! ## Claim theorems -/

/-- Environment for concrete runs: no ffmpeg, nothing probed, tools raise. -/
def exEnv : PostEnv :=
  { fs := [], ffmpegOk := false, probedV := "", probedA := "",
    toolNorm := ToolRun.raised none, toolQt := ToolRun.raised none }

/-- A first strategy whose transfer completes (firing the `finished` hook)
before the strategy fails, followed by a succeeding strategy. -/
def c1Strats : List StratOutcome :=
  [⟨[HookEvent.transferDone], Except.error "merge failed"⟩,
   ⟨[HookEvent.progress none none none none none], Except.ok "video.mp4"⟩]

/-- C1 counterexample: the claim that every status transition follows a §4.3
edge is false.  When a strategy's transfer completes (hook `finished`, store
moves to `postprocessing`) and the strategy then fails, the next strategy's
first progress callback moves the store back to `downloading` — the pair
`postprocessing → downloading` is not a §4.3 edge, so the history violates
the claimed chain at a concrete input. -/
theorem c1_counterexample :
    chainAllB spec43StepB (fullTrace exEnv c1Strats) = false := by decide

/-- C1 (amended): every adjacent pair of states in a job's full history
(the `queued` record of the `/download` endpoint followed by every record
`run_download_async` and the progress hook write) follows an edge of §4.3
extended with the single re-entry edge `postprocessing → downloading`, and
the source of every transition is non-terminal — in particular no
transition ever leaves `finished`, `error` or `cancelled`. -/
theorem c1_extended_state_machine (env : PostEnv) (strats : List StratOutcome) :
    chainAllB stepB (fullTrace env strats) = true :=
  trace_chain env strats

/-- C2: in every state a job's history passes through, at most one of the
result fields (`filepath`/`filename`) and the `error` field is populated: a
record carrying a result never carries an error message and vice versa. -/
theorem c2_result_error_exclusive (env : PostEnv) (strats : List StratOutcome) :
    (fullTrace env strats).all resultErrorExclusive = true :=
  trace_exclusive env strats

/-- A single failing strategy whose message triggers the Instagram hint. -/
def c3Strats : List StratOutcome := [⟨[], Except.error "Instagram login required"⟩]

/-- C3 counterexample: the claim that the recorded error message is exactly
the last strategy's failure message is false — when the message mentions
Instagram the handler appends an authentication hint before storing it. -/
theorem c3_counterexample :
    lastStatus (fullTrace exEnv c3Strats) = Status.error ∧
    lastError (fullTrace exEnv c3Strats) ≠ some "Instagram login required" := by
  constructor
  · rfl
  · decide

/-- C3 (amended): strategies run in list order, each on failure of the
previous: when everything before `s` fails and `s` succeeds the strategies
after `s` are never attempted (the run equals the run without them), the
job finishes and never passes through `error`; when every strategy fails
the job ends in `error` and the recorded message is the last strategy's
message passed through `augmentError` (identity unless the message mentions
Instagram, login or rate limiting, in which case a fixed hint is appended). -/
theorem c3_strategy_fallback (env : PostEnv) (strats pre post : List StratOutcome)
    (s : StratOutcome) (p m : String) :
    (strats = pre ++ s :: post → allFailB pre = true → s.result = Except.ok p →
      runDownload env strats = runDownload env (pre ++ [s]) ∧
      lastStatus (fullTrace env strats) = Status.finished ∧
      (fullTrace env strats).all notErrB = true) ∧
    (allFailB strats = true → strats.getLast? = some s →
      s.result = Except.error m →
      lastStatus (fullTrace env strats) = Status.error ∧
      lastError (fullTrace env strats) = some (augmentError m)) := by
  constructor
  · intro hs hf hok
    subst hs
    obtain ⟨heq, hfin, _, hnerr⟩ := run_success env pre s post p hf hok
    exact ⟨heq, hfin, hnerr⟩
  · intro hf hl hr
    exact run_allFail env strats s m hf hl hr

/-- The failing strategies used by the C3 witness. -/
def failA : StratOutcome := ⟨[], Except.error "a"⟩

/-- A second failing strategy with a distinct message. -/
def failB : StratOutcome := ⟨[], Except.error "b"⟩

/-- A succeeding strategy. -/
def okF : StratOutcome := ⟨[], Except.ok "f.mp4"⟩

theorem c3_strategy_fallback_witness :
    lastStatus (fullTrace exEnv [failA, okF]) = Status.finished ∧
    lastError (fullTrace exEnv [failA, failB]) = some (augmentError "b") := by
  constructor
  · exact ((c3_strategy_fallback exEnv [failA, okF] [failA] [] okF "f.mp4" "x").1
      rfl (by decide) rfl).2.1
  · exact ((c3_strategy_fallback exEnv [failA, failB] [] [] failB "x" "b").2
      (by decide) (by decide) rfl).2

/-- C10: each post-processing operation returns exactly the path it was
given — on success, failure and skip alike — so the file path recorded in
the finished job equals the path the download step produced. -/
theorem c10_path_identity (b : Bool) (t1 t2 t3 : ToolRun) (fs : FS)
    (p vc ac : String) (env : PostEnv)
    (pres : List (List HookEvent × String)) (es : List HookEvent) :
    (normalize_mp4 b t1 fs p).2 = p ∧
    (ensure_quicktime_compatible b vc ac t2 fs p).2 = p ∧
    (ensure_compatible_format b t3 fs p).2 = p ∧
    lastFilepath (fullTrace env
      ((pres.map fun q => StratOutcome.mk q.1 (Except.error q.2)) ++
        [⟨es, Except.ok p⟩])) = some p := by
  refine ⟨normalize_mp4_path b t1 fs p,
    ensure_quicktime_compatible_path b vc ac t2 fs p,
    ensure_compatible_format_path b t3 fs p, ?_⟩
  have hf : allFailB (pres.map fun q => StratOutcome.mk q.1 (Except.error q.2)) = true := by
    apply List.all_eq_true.mpr
    intro x hx
    rw [List.mem_map] at hx
    obtain ⟨q, _, hq⟩ := hx
    rw [← hq]
    rfl
  obtain ⟨_, _, hfp, _⟩ := run_success env
    (pres.map fun q => StratOutcome.mk q.1 (Except.error q.2))
    ⟨es, Except.ok p⟩ [] p hf rfl
  exact hfp

/-- C4 counterexample: the claim that on any post-processing failure the
temporary artifact is removed is false for
`VideoDownloader._ensure_compatible_format`: when the remux tool exits
nonzero after producing partial output, the function takes no cleanup
action (its guard only reacts to exit status zero, its handler only to a
raised call), so the `.temp.mp4` artifact — absent before the call —
remains on disk. -/
theorem c4_counterexample :
    fsGet [("v.mp4", 3)] (tempName "v.mp4") = none ∧
    toolFailed (ToolRun.completed 1 (some 7)) = true ∧
    fsGet (ensure_compatible_format true (ToolRun.completed 1 (some 7))
      [("v.mp4", 3)] "v.mp4").1 (tempName "v.mp4") = some 7 := by
  decide

/-- C4 (amended): every post-processing step writes only to a fresh
temporary name distinct from the original; on a failing tool run
`normalize_mp4` and `ensure_quicktime_compatible` keep the original
contents and leave no temporary behind, and so does
`_ensure_compatible_format` when the invocation raises — but a nonzero
exit of `_ensure_compatible_format`'s tool, while keeping the original
intact, leaves the temporary artifact on disk; only an exit-zero run
replaces the original with the tool output (removing the temporary); and
regardless of any post-processing outcome a job whose acquisition
succeeded still reaches `finished`. -/
theorem c4_postprocessing (b : Bool) (vc ac : String) (t tN tQ : ToolRun)
    (fs : FS) (p : String) (o : Option Nat) (c k : Nat) :
    (fixedName p ≠ p ∧ qtName p ≠ p ∧ tempName p ≠ p) ∧
    (toolFailed t = true →
      fsGet (normalize_mp4 b t fs p).1 p = fsGet fs p ∧
      ((normalize_mp4 b t fs p).1 = fs ∨
        fsGet (normalize_mp4 b t fs p).1 (fixedName p) = none)) ∧
    (toolFailed t = true →
      fsGet (ensure_quicktime_compatible b vc ac t fs p).1 p = fsGet fs p ∧
      ((ensure_quicktime_compatible b vc ac t fs p).1 = fs ∨
        fsGet (ensure_quicktime_compatible b vc ac t fs p).1 (qtName p) = none)) ∧
    (fsGet (ensure_compatible_format b (ToolRun.raised o) fs p).1 p = fsGet fs p ∧
      ((ensure_compatible_format b (ToolRun.raised o) fs p).1 = fs ∨
        fsGet (ensure_compatible_format b (ToolRun.raised o) fs p).1 (tempName p)
          = none)) ∧
    (fsGet (ensure_compatible_format b (ToolRun.completed (k + 1) o) fs p).1 p
      = fsGet fs p) ∧
    ((strToLower (splitext p).2 == ".mp4") = true →
      fsGet (ensure_compatible_format true (ToolRun.completed (k + 1) (some c)) fs p).1
        (tempName p) = some c) ∧
    (strEndsWith (strToLower p) ".mp4" = true →
      fsGet (normalize_mp4 true (ToolRun.completed 0 (some c)) fs p).1 p = some c ∧
      fsGet (normalize_mp4 true (ToolRun.completed 0 (some c)) fs p).1 (fixedName p)
        = none) ∧
    lastStatus (fullTrace ⟨fs, b, vc, ac, tN, tQ⟩ [⟨[], Except.ok p⟩])
      = Status.finished := by
  refine ⟨⟨fixedName_ne p, qtName_ne p, tempName_ne p⟩, ?_, ?_, ?_, ?_, ?_, ?_, ?_⟩
  · intro hfail
    exact normalize_mp4_fail b t fs p hfail
  · intro hfail
    exact ensure_quicktime_compatible_fail b vc ac t fs p hfail
  · exact ensure_compatible_format_raised b o fs p
  · exact ensure_compatible_format_nonzero_keeps b k o fs p
  · intro hmp4
    exact ensure_compatible_format_nonzero_artifact k c fs p hmp4
  · intro hmp4
    exact normalize_mp4_success c fs p hmp4
  · obtain ⟨_, hfin, _, _⟩ := run_success ⟨fs, b, vc, ac, tN, tQ⟩ []
      ⟨[], Except.ok p⟩ [] p rfl rfl
    exact hfin

theorem c4_postprocessing_witness :
    fsGet (normalize_mp4 true (ToolRun.completed 1 none) [("v.mp4", 3)] "v.mp4").1
      "v.mp4" = some 3 ∧
    fsGet (ensure_compatible_format true (ToolRun.completed 1 (some 7))
      [("w.mp4", 3)] "w.mp4").1 (tempName "w.mp4") = some 7 := by
  constructor
  · have h := (c4_postprocessing true "" "" (ToolRun.completed 1 none)
      (ToolRun.raised none) (ToolRun.raised none) [("v.mp4", 3)] "v.mp4"
      none 0 0).2.1 (by decide)
    rw [h.1]
    rfl
  · exact (c4_postprocessing true "" "" (ToolRun.raised none) (ToolRun.raised none)
      (ToolRun.raised none) [("w.mp4", 3)] "w.mp4" (some 7) 7 0).2.2.2.2.2.1
      (by decide)

/-- C5 counterexample: the claim that at most `C` downloads run
simultaneously is false for submitted jobs.  With the default capacity 3,
four `/download` admissions each spawn `run_download_async` without taking
a permit, reaching a state with four active downloads. -/
theorem c5_counterexample :
    SemReachable max_concurrent_downloads
      ⟨max_concurrent_downloads, 0, max_concurrent_downloads + 1⟩ ∧
    max_concurrent_downloads <
      totalActive ⟨max_concurrent_downloads, 0, max_concurrent_downloads + 1⟩ := by
  constructor
  · exact sem_main_unbounded max_concurrent_downloads (max_concurrent_downloads + 1)
  · decide

/-- C5 (amended): downloads routed through `VideoDownloader.download` hold
exactly one permit for their whole duration, released on every exit path,
so in every reachable state permits plus semaphore-held downloads equal the
configured capacity and at most `cap` such downloads are active; jobs
submitted through the `/download` endpoint, however, start
`run_download_async` without acquiring a permit and are not bounded by the
capacity. -/
theorem c5_semaphore_bound (cap : Nat) (s : SemState) (h : SemReachable cap s) :
    s.permits + s.activeSem = cap ∧ s.activeSem ≤ cap :=
  sem_invariant cap s h

theorem c5_semaphore_bound_witness :
    (2 : Nat) + 1 = max_concurrent_downloads ∧ 1 ≤ max_concurrent_downloads :=
  c5_semaphore_bound max_concurrent_downloads ⟨2, 1, 0⟩
    (SemReachable.step SemReachable.init (SemStep.acquire 2 0 0))

/-- The terminal snapshot used by the C6 theorems. -/
def finJob : Job :=
  { status := Status.finished, filepath := some "v.mp4",
    filename := some "v.mp4", percent := some "100%" }

/-- Broadcaster state right after the `/download` endpoint: store shows
`queued`, the queue exists and is empty, the broadcaster task runs, the
producer runs, no observer is attached. -/
def bInit : BState :=
  { store := some queuedJob, queue := some [], loopAlive := true,
    producerDone := false, subscribed := false, delivered := [] }

/-- C6 counterexample: the claim that an observer subscribing after the job
has already reached `finished` receives exactly one snapshot is false.  The
producer writes the terminal record to the store and enqueues it in one
step; until `_broadcast_loop` resumes, the store already shows `finished`
while the terminal payload still sits in the queue.  An observer
subscribing in that window is sent the snapshot by `ws_progress` and then
the queued payload by the fan-out: two terminal snapshots. -/
theorem c6_counterexample :
    (runActs bInit [BAct.produce finJob]).store = some finJob ∧
    finJob.status = Status.finished ∧
    (runActs bInit [BAct.produce finJob, BAct.subscribe, BAct.poll]).delivered
      = [finJob, finJob] ∧
    [finJob, finJob] ≠ [finJob] := by
  decide

/-- C6 (amended): an observer subscribing to a job is immediately sent the
job's last known snapshot, before any live event can reach it.  An observer
that subscribes after the job has reached `finished` receives exactly that
one terminal snapshot and nothing more — whatever the broadcaster and the
connection do afterwards — provided the terminal payload has already been
drained from the job's queue; if the terminal payload is still queued at
subscribe time, the observer instead receives the terminal snapshot twice
(once as the immediate snapshot, once from the fan-out), after which
nothing more is ever delivered. -/
theorem c6_subscribe_snapshot (s : BState) (j : Job) (acts : List BAct)
    (hsub : s.subscribed = false) (hstore : s.store = some j) :
    (applyAct s BAct.subscribe).delivered = s.delivered ++ [j] ∧
    (∃ t : List Job, (runActs (applyAct s BAct.subscribe) acts).delivered
      = (s.delivered ++ [j]) ++ t) ∧
    (j.status = Status.finished → s.producerDone = true → queueDrained s = true →
      s.delivered = [] → noSubscribeActs acts = true →
      (runActs (applyAct s BAct.subscribe) acts).delivered = [j]) ∧
    (isTermPayload j = true → s.producerDone = true → s.queue = some [j] →
      s.loopAlive = true → s.delivered = [] → noSubscribeActs acts = true →
      (runActs s (BAct.subscribe :: BAct.poll :: acts)).delivered = [j, j]) := by
  have hfirst : (applyAct s BAct.subscribe).delivered = s.delivered ++ [j] := by
    simp [applyAct, hsub, hstore]
  refine ⟨hfirst, ?_, ?_, ?_⟩
  · obtain ⟨t, ht⟩ := delivered_monotone acts (applyAct s BAct.subscribe)
    exact ⟨t, by rw [ht, hfirst]⟩
  · intro hjs hdone hq hdel hns
    have h1 : (applyAct s BAct.subscribe).producerDone = true := by
      simp [applyAct, hsub]
      exact hdone
    have hqs : (applyAct s BAct.subscribe).queue = s.queue := by
      simp [applyAct, hsub]
    have h2 : queueDrained (applyAct s BAct.subscribe) = true := by
      unfold queueDrained at hq ⊢
      rw [hqs]
      exact hq
    have hstable := settled_stable acts (applyAct s BAct.subscribe) h1 h2 hns
    rw [hstable, hfirst, hdel]
    rfl
  · intro hterm hdone hq hla hdel hns
    have hs1 : applyAct s BAct.subscribe =
        { store := s.store, queue := s.queue, loopAlive := s.loopAlive,
          producerDone := s.producerDone, subscribed := true,
          delivered := s.delivered ++ [j] } := by
      simp [applyAct, hsub, hstore]
    have hs2 : applyAct (applyAct s BAct.subscribe) BAct.poll =
        { store := s.store, queue := none, loopAlive := false,
          producerDone := s.producerDone, subscribed := false,
          delivered := (s.delivered ++ [j]) ++ [j] } := by
      rw [hs1]
      simp [applyAct, hla, hq, hterm]
    have hpd : (applyAct (applyAct s BAct.subscribe) BAct.poll).producerDone
        = true := by
      rw [hs2]
      exact hdone
    have hqd : queueDrained (applyAct (applyAct s BAct.subscribe) BAct.poll)
        = true := by
      rw [hs2]
      rfl
    show (runActs (applyAct (applyAct s BAct.subscribe) BAct.poll) acts).delivered
      = [j, j]
    rw [settled_stable acts _ hpd hqd hns, hs2, hdel]
    rfl

/-- Settled broadcaster state of a finished job: producer ended, queue
popped, loop exited, observer not yet attached. -/
def c6State : BState :=
  { store := some finJob, queue := none, loopAlive := false,
    producerDone := true, subscribed := false, delivered := [] }

/-- Race-window broadcaster state of a finished job: producer ended, the
terminal payload still queued, loop alive, observer not yet attached. -/
def c6RaceState : BState :=
  { store := some finJob, queue := some [finJob], loopAlive := true,
    producerDone := true, subscribed := false, delivered := [] }

theorem c6_subscribe_snapshot_witness :
    (runActs (applyAct c6State BAct.subscribe)
      [BAct.poll, BAct.disconnect, BAct.poll]).delivered = [finJob] ∧
    (runActs c6RaceState
      [BAct.subscribe, BAct.poll, BAct.disconnect]).delivered
      = [finJob, finJob] := by
  constructor
  · exact (c6_subscribe_snapshot c6State finJob [BAct.poll, BAct.disconnect, BAct.poll]
      rfl rfl).2.2.1 rfl rfl rfl rfl rfl
  · exact (c6_subscribe_snapshot c6RaceState finJob [BAct.disconnect]
      rfl rfl).2.2.2 rfl rfl rfl rfl rfl rfl

/-- A format selector carrying a semicolon. -/
def semicolonFmt : String := "137+140;curl attacker"

/-- C7: the claim is right about `DownloadRequest.validate_format` — a
selector with a semicolon is rejected — but the `/download` endpoint never
invokes it: at the failing input the job record, the queue and both
background tasks are all created. -/
theorem c7_no_validation :
    validate_format semicolonFmt = Except.error "Invalid characters in format" ∧
    (download_endpoint emptyApp "https://www.youtube.com/watch?v=x" semicolonFmt
      "job-1").1.jobs = [("job-1", queuedJob)] ∧
    (download_endpoint emptyApp "https://www.youtube.com/watch?v=x" semicolonFmt
      "job-1").1.queues = ["job-1"] ∧
    (download_endpoint emptyApp "https://www.youtube.com/watch?v=x" semicolonFmt
      "job-1").1.tasks = ["job-1"] := by
  decide

/-- A job record that is still downloading. -/
def dlJob : Job := { status := Status.downloading }

/-- A store holding a job that is still downloading. -/
def c8Env : FetchEnv := { store := [("j1", dlJob)], existing := [] }

/-- C8 counterexample: the claim that `fetch_result` fails with 409 when
the job is not finished is false — the endpoint raises 404 (`"File is not
ready yet"`) there; and on a successful fetch the state is returned
unchanged, refuting any scheduled removal. -/
theorem c8_counterexample :
    fetchCode (fetch_file c8Env "j1").1 = some 404 ∧
    fetchCode (fetch_file c8Env "j1").1 ≠ some 409 := by
  decide

/-- C8 (amended): `fetch_file` returns the file stream when the job is
finished, a non-empty path is recorded and the file exists; fails with 404
`"File is not ready yet"` when the job is unknown or not finished (not
409); fails with 404 `"File not found"` when the file is missing; and
leaves the store untouched — no removal of the job is scheduled. -/
theorem c8_fetch_file (env : FetchEnv) (jobId : String) (j : Job) (fp : String) :
    (lookupJob env.store jobId = none →
      (fetch_file env jobId).1 = FetchResult.http 404 "File is not ready yet") ∧
    (lookupJob env.store jobId = some j → j.status ≠ Status.finished →
      (fetch_file env jobId).1 = FetchResult.http 404 "File is not ready yet") ∧
    (lookupJob env.store jobId = some j → j.status = Status.finished →
      j.filepath = some fp → fp ≠ "" → env.existing.contains fp = true →
      (fetch_file env jobId).1 = FetchResult.file fp (basename fp)) ∧
    (lookupJob env.store jobId = some j → j.status = Status.finished →
      j.filepath = some fp → env.existing.contains fp = false →
      (fetch_file env jobId).1 = FetchResult.http 404 "File not found") ∧
    (fetch_file env jobId).2 = env := by
  refine ⟨?_, ?_, ?_, ?_, ?_⟩
  · intro h
    unfold fetch_file
    simp only [h]
  · intro h hst
    unfold fetch_file
    simp only [h]
    rw [if_pos hst]
  · intro h hst hfp hne hex
    unfold fetch_file
    simp only [h]
    rw [if_neg (fun hc => hc hst)]
    simp only [hfp]
    rw [if_neg (by
      rintro (h1 | h2)
      · exact hne h1
      · rw [hex] at h2
        simp at h2)]
  · intro h hst hfp hex
    unfold fetch_file
    simp only [h]
    rw [if_neg (fun hc => hc hst)]
    simp only [hfp]
    rw [if_pos (Or.inr hex)]
  · unfold fetch_file
    cases hlk : lookupJob env.store jobId with
    | none => simp only [hlk]
    | some info =>
      simp only [hlk]
      by_cases hst : info.status ≠ Status.finished
      · rw [if_pos hst]
      · rw [if_neg hst]
        cases hfp : info.filepath with
        | none => simp only [hfp]
        | some q =>
          simp only [hfp]
          by_cases hex : q = "" ∨ env.existing.contains q = false
          · rw [if_pos hex]
          · rw [if_neg hex]

/-- The finished job used by the C8 witness. -/
def c8OkJob : Job :=
  { status := Status.finished, filepath := some "d/v.mp4",
    filename := some "v.mp4", percent := some "100%" }

/-- A store holding the finished job, its file present on disk. -/
def c8OkEnv : FetchEnv := { store := [("j2", c8OkJob)], existing := ["d/v.mp4"] }

theorem c8_fetch_file_witness :
    (fetch_file c8OkEnv "j2").1 = FetchResult.file "d/v.mp4" (basename "d/v.mp4") ∧
    (fetch_file c8OkEnv "j2").2 = c8OkEnv := by
  constructor
  · exact (c8_fetch_file c8OkEnv "j2" c8OkJob "d/v.mp4").2.2.1 (by decide) rfl rfl
      (by decide) (by decide)
  · exact (c8_fetch_file c8OkEnv "j2" c8OkJob "d/v.mp4").2.2.2.2

/-- C9: the `/download` endpoint performs no admission control at all —
every request creates a job, so any number of requests from one client
within one minute are all accepted; in particular one more than the
configured `rate_limit_per_minute` (default 20) admissions all create
jobs, where the claim requires the 21st to be rejected before any job is
created. -/
theorem c9_no_rate_limit :
    (∀ n : Nat, (submitRepeatedly n).jobs.length = n) ∧
    rate_limit_per_minute <
      (submitRepeatedly (rate_limit_per_minute + 1)).jobs.length := by
  have hlen : ∀ n : Nat, (submitRepeatedly n).jobs.length = n := by
    intro n
    induction n with
    | zero => rfl
    | succ k ih => simp [submitRepeatedly, download_endpoint, ih]
  refine ⟨hlen, ?_⟩
  rw [hlen]
  decide
